import Mathlib

/-!
A verification development for the decimal fetch strategies and the ODBC
row-set buffer of odbc2parquet.  The Rust sources embedded here are
`src/query/decimal.rs` and `src/odbc_buffer.rs`; definitions whose code is
not among those files are modelled from the specification and say so in
their doc comment.
-/

namespace Odbc2Parquet

/-- Parquet repetition of a schema field (`parquet::basic::Repetition`). -/
inductive Repetition where
  | required
  | optional
deriving DecidableEq, Repr

/-- Parquet physical types used by the decimal strategies
(`parquet::basic::Type`). -/
inductive PhysicalType where
  | int32
  | int64
  | fixedLenByteArray
deriving DecidableEq, Repr

/-- Parquet converted (logical) types used here (`parquet::basic::ConvertedType`). -/
inductive ConvertedType where
  | decimal
deriving DecidableEq, Repr

/-- A parquet primitive schema node as assembled by
`Type::primitive_type_builder` in the strategies' `parquet_type` methods.
`length` is `some n` only when `with_length` was called (fixed-length byte
arrays). -/
structure PrimitiveType where
  physical : PhysicalType
  repetition : Repetition
  converted : ConvertedType
  precision : Int
  scale : Int
  length : Option Nat
deriving DecidableEq, Repr

/-- `odbc_api::buffers::BufferKind` restricted to the kinds the embedded code
mentions. -/
inductive BufferKind where
  | text (max_str_len : Nat)
  | f64
  | f32
  | date
  | timestamp
  | i32
  | i64
  | bit
deriving DecidableEq, Repr

/-- `odbc_api::buffers::BufferDescription`. -/
structure BufferDescription where
  kind : BufferKind
  nullable : Bool
deriving DecidableEq, Repr

/-- `odbc_api::DataType::Decimal { precision, scale }.display_size()` of the
odbc-api dependency: one sign character plus `precision` digits plus one radix
character, i.e. `precision + 2`.  The repository's own comments at both
`buffer_description` implementations in `decimal.rs` document exactly this
value. -/
def decimalDisplaySize (precision : Nat) : Nat :=
  precision + 2

/-- `if is_optional { Repetition::OPTIONAL } else { Repetition::REQUIRED }`,
as written in `decmial_fetch_strategy` and the strategies. -/
def repetitionOf (is_optional : Bool) : Repetition :=
  if is_optional then Repetition.optional else Repetition.required

/-- Bit length of a natural number (`⌊log2 n⌋ + 1` for positive `n`), with
explicit fuel so the kernel can evaluate it; every call in this development
passes fuel 128, which dominates the at most 117-bit numerators that occur. -/
def bitLen : Nat → Nat → Nat
  | 0, _ => 0
  | fuel + 1, n => if n = 0 then 0 else bitLen fuel (n / 2) + 1

/-- Round-to-nearest, ties-to-even, of the nonnegative dyadic rational
`a / 2 ^ d` to 53 significant bits — the IEEE-754 binary64 rounding for
results in the normal range, which covers every intermediate value of
`DecimalAsBinary::new`.  The result is an exact numerator over the same
power-of-two denominator. -/
def roundF64 (a d : Nat) : Nat × Nat :=
  let b := bitLen 128 a
  if b ≤ 53 then (a, d)
  else
    let s := b - 53
    let q := a / 2 ^ s
    let r := a % 2 ^ s
    let half := 2 ^ (s - 1)
    let q' := if half < r ∨ (r = half ∧ q % 2 = 1) then q + 1 else q
    (q' * 2 ^ s, d)

/-- The IEEE-754 binary64 value of `10f64.log2()`: the double nearest to
`log2 10`, namely `7480317065143153 / 2 ^ 51` (about 1.1e-16 below the true
value). -/
def log2TenNum : Nat := 7480317065143153

/-- The byte length computed by `DecimalAsBinary::new` (decimal.rs, lines
78-92), modelling the source's `f64` chain exactly: `precision as f64`
(round to double), `* 10f64.log2()` (exact product by `log2TenNum / 2 ^ 51`,
then round), `+ 1.0` (exact sum on a common denominator, then round),
`/ 8.0` (a power-of-two scaling, always exact), `.ceil() as usize` (exact on
a double, and the result is far below the saturation threshold of the cast).
Every intermediate value is a nonnegative dyadic rational in the normal
binary64 range, so rounding to 53 significant bits is the exact IEEE-754
semantics of each operation. -/
def length_in_bytes (precision : Nat) : Nat :=
  let p64 := roundF64 precision 0
  let prod := roundF64 (p64.1 * log2TenNum) (p64.2 + 51)
  let sum := roundF64 (prod.1 + 2 ^ prod.2) prod.2
  let quot := roundF64 sum.1 (sum.2 + 3)
  (quot.1 + 2 ^ quot.2 - 1) / 2 ^ quot.2

/-- The spec's byte-length formula `ceil((precision * log2 10 + 1) / 8)` over
exact reals, written through its integer characterization: the least `L`
with `precision * log2 10 + 1 ≤ 8 * L`, equivalently the least `L` with
`2 * 10 ^ precision ≤ 2 ^ (8 * L)`.  This is the specification-side
definition against which the source's `f64` computation `length_in_bytes` is
compared; the equivalence with the real ceiling is proved below. -/
def lengthInBytesExact (precision : Nat) : Nat :=
  Nat.find (show ∃ L, 2 * 10 ^ precision ≤ 2 ^ (8 * L) from
    ⟨precision + 1, by
      calc 2 * 10 ^ precision ≤ 2 * 16 ^ precision := by
            exact Nat.mul_le_mul_left 2 (Nat.pow_le_pow_left (by norm_num) precision)
        _ = 2 ^ (4 * precision + 1) := by
            rw [show (16 : Nat) = 2 ^ 4 by norm_num, ← pow_mul, pow_succ, mul_comm]
        _ ≤ 2 ^ (8 * (precision + 1)) := Nat.pow_le_pow_right (by norm_num) (by omega)⟩)

/-- The concrete `ColumnFetchStrategy` implementation boxed by
`decmial_fetch_strategy`.  `identicalI32`/`identicalI64` stand for the result
of `fetch_decimal_as_identical_with_precision::<Int32Type>` resp. `Int64Type`
(from `src/query/identical.rs`), `i64FromText` for `I64FromText::decimal`,
and `decimalAsBinary` for `DecimalAsBinary::new` with its computed byte
length. -/
inductive FetchStrategy where
  | identicalI32 (is_optional : Bool) (precision : Int)
  | identicalI64 (is_optional : Bool) (precision : Int)
  | i64FromText (is_optional : Bool) (precision : Int)
  | decimalAsBinary (repetition : Repetition) (scale : Int) (precision : Nat)
      (length_in_bytes : Nat)
deriving DecidableEq, Repr

/-- `DecimalAsBinary::new` (decimal.rs, lines 78-92). -/
def DecimalAsBinary.new (repetition : Repetition) (scale : Int) (precision : Nat) :
    FetchStrategy :=
  FetchStrategy.decimalAsBinary repetition scale precision (length_in_bytes precision)

/-- `decmial_fetch_strategy` (decimal.rs, lines 21-68): the match over
`(precision, scale)` with ranges `(0..=9, 0)`, `(10..=18, 0)` and the
catch-all.  `precision` is a `usize`, `scale` an `i32`. -/
def decmial_fetch_strategy (is_optional : Bool) (scale : Int) (precision : Nat)
    (driver_does_support_i64 : Bool) : FetchStrategy :=
  if precision ≤ 9 ∧ scale = 0 then
    FetchStrategy.identicalI32 is_optional (precision : Int)
  else if 10 ≤ precision ∧ precision ≤ 18 ∧ scale = 0 then
    if driver_does_support_i64 then
      FetchStrategy.identicalI64 is_optional (precision : Int)
    else
      FetchStrategy.i64FromText is_optional (precision : Int)
  else
    DecimalAsBinary.new (repetitionOf is_optional) scale precision

/-- Modelled from the spec: `fetch_decimal_as_identical_with_precision` lives
in `src/query/identical.rs`, which is not among the sources.  Per the spec's
strategy table and component design, the identical strategies report the same
physical type they fetch (INT32 or INT64) as a DECIMAL with the given
precision, scale 0, and repetition OPTIONAL iff the column is nullable. -/
def identicalParquetType (physical : PhysicalType) (is_optional : Bool)
    (precision : Int) : PrimitiveType :=
  { physical := physical
    repetition := repetitionOf is_optional
    converted := ConvertedType.decimal
    precision := precision
    scale := 0
    length := none }

/-- Modelled from the spec: the identical strategies (in the missing
`src/query/identical.rs`) fetch the value as a native 32- resp. 64-bit
integer, so they request a buffer of exactly that kind, nullable iff the
column is nullable. -/
def identicalBufferDescription (kind : BufferKind) (is_optional : Bool) :
    BufferDescription :=
  { kind := kind, nullable := is_optional }

/-- The `parquet_type` method of each strategy.  The `i64FromText` and
`decimalAsBinary` rows are transcribed from `I64FromText::parquet_type`
(decimal.rs, lines 175-190) and `DecimalAsBinary::parquet_type` (lines
96-105); the identical rows use the spec-modelled `identicalParquetType`. -/
def FetchStrategy.parquet_type : FetchStrategy → PrimitiveType
  | FetchStrategy.identicalI32 o p => identicalParquetType PhysicalType.int32 o p
  | FetchStrategy.identicalI64 o p => identicalParquetType PhysicalType.int64 o p
  | FetchStrategy.i64FromText o p =>
      { physical := PhysicalType.int64
        repetition := repetitionOf o
        converted := ConvertedType.decimal
        precision := p
        scale := 0
        length := none }
  | FetchStrategy.decimalAsBinary r s p len =>
      { physical := PhysicalType.fixedLenByteArray
        repetition := r
        converted := ConvertedType.decimal
        precision := (p : Int)
        scale := s
        length := some len }

/-- The `buffer_description` method of each strategy.  The `i64FromText` row
is `I64FromText::buffer_description` (decimal.rs, lines 192-205) and the
`decimalAsBinary` row is `DecimalAsBinary::buffer_description` (lines
107-119); both size the text buffer by `DataType::Decimal.display_size()`.
The identical rows use the spec-modelled `identicalBufferDescription`. -/
def FetchStrategy.buffer_description : FetchStrategy → BufferDescription
  | FetchStrategy.identicalI32 o _ => identicalBufferDescription BufferKind.i32 o
  | FetchStrategy.identicalI64 o _ => identicalBufferDescription BufferKind.i64 o
  | FetchStrategy.i64FromText o p =>
      { kind := BufferKind.text (decimalDisplaySize p.toNat), nullable := o }
  | FetchStrategy.decimalAsBinary _ _ p _ =>
      { kind := BufferKind.text (decimalDisplaySize p), nullable := true }

/-- The four kinds of strategy a selector call can produce. -/
inductive StrategyKind where
  | identicalI32
  | identicalI64
  | i64FromText
  | decimalAsBinary
deriving DecidableEq, Repr

/-- Which concrete implementation a `FetchStrategy` is. -/
def FetchStrategy.kind : FetchStrategy → StrategyKind
  | FetchStrategy.identicalI32 _ _ => StrategyKind.identicalI32
  | FetchStrategy.identicalI64 _ _ => StrategyKind.identicalI64
  | FetchStrategy.i64FromText _ _ => StrategyKind.i64FromText
  | FetchStrategy.decimalAsBinary _ _ _ _ => StrategyKind.decimalAsBinary

/-- Big-endian base-256 rendering of a natural number into exactly `len`
bytes (most significant byte first).  Helper for the two's-complement
encoding below. -/
def natToBytesBE : Nat → Nat → List Nat
  | 0, _ => []
  | len + 1, m => natToBytesBE len (m / 256) ++ [m % 256]

/-- Reads a big-endian base-256 byte string back into a natural number. -/
def bytesToNatBE (bs : List Nat) : Nat :=
  bs.foldl (fun acc b => acc * 256 + b) 0

/-- Modelled from the spec: the byte rendering inside
`ParquetBuffer::write_decimal` (`src/parquet_buffer.rs` is not among the
sources).  The scaled integer is rendered as a big-endian two's-complement
byte string sign-extended/padded to exactly `len` bytes. -/
def encodeTwosComplementBE (len : Nat) (v : Int) : List Nat :=
  natToBytesBE len (v % (2 ^ (8 * len) : Nat)).toNat

/-- Interpretation of a big-endian two's-complement byte string as a signed
integer: the most significant bit denotes the sign. -/
def decodeTwosComplementBE (bs : List Nat) : Int :=
  let n := bytesToNatBE bs
  if 2 ^ (8 * bs.length - 1) ≤ n then (n : Int) - 2 ^ (8 * bs.length) else (n : Int)

/-- The numeric value of an ASCII decimal digit, `none` on any other
character. -/
def digitVal (c : Char) : Option Nat :=
  if '0' ≤ c ∧ c ≤ '9' then some (c.toNat - '0'.toNat) else none

/-- Parses a non-empty all-digit character list as a natural number;
`none` if the list is empty or contains a non-digit. -/
def parseDigits (cs : List Char) : Option Nat :=
  match cs with
  | [] => none
  | _ => go cs 0
where
  go : List Char → Nat → Option Nat
    | [], acc => some acc
    | c :: cs, acc =>
      match digitVal c with
      | some d => go cs (acc * 10 + d)
      | none => none

/-- Modelled from the spec: the text-to-integer step of
`ParquetBuffer::write_decimal` (`src/parquet_buffer.rs` is not among the
sources).  The radix point is stripped from the text — treating the digits
as an integer scaled by `scale` — and the rest is parsed as a signed base-10
integer; text that is not a well-formed rendering is a fatal fault,
modelled as `none`. -/
def decimalTextToInt (cs : List Char) : Option Int :=
  match cs.filter (fun c => c ≠ '.') with
  | '-' :: rest => (parseDigits rest).map (fun n => -(n : Int))
  | '+' :: rest => (parseDigits rest).map (fun n => (n : Int))
  | rest => (parseDigits rest).map (fun n => (n : Int))

/-- Modelled from the spec: `ParquetBuffer::write_decimal`
(`src/parquet_buffer.rs` is not among the sources).  One entry is appended
per fetched row: an absent entry for a null source value (no bytes written),
otherwise the scaled integer parsed from the text rendered as a big-endian
two's-complement byte string of exactly `length_in_bytes` bytes.  A fatal
fault (malformed text) is modelled as `none` for the whole call.  The
`precision` argument only sizes internals and does not affect the output. -/
def write_decimal (values : List (Option (List Char))) (length_in_bytes : Nat)
    (_precision : Nat) : Option (List (Option (List Nat))) :=
  values.mapM fun v =>
    match v with
    | none => some none
    | some text =>
        (decimalTextToInt text).map (fun n => some (encodeTwosComplementBE length_in_bytes n))

/-- `odbc_api::buffers::AnyColumnView`, the per-column view handed to
`copy_odbc_to_parquet`.  Only the variants read by the embedded strategies
carry their payload; text values are per-row optional byte strings
(`none` = NULL). -/
inductive AnyColumnView where
  | text (values : List (Option (List Char)))
  | f64
  | f32
  | date
  | timestamp
  | i32 (values : List (Option Int))
  | i64 (values : List (Option Int))
  | bit
deriving DecidableEq, Repr

/-- `write_decimal_col` (decimal.rs, lines 137-154): requires a `Text` view
and hands it to `ParquetBuffer::write_decimal`; any other variant aborts the
process (the `panic!` call), modelled as `none`. -/
def write_decimal_col (column_reader : AnyColumnView) (length_in_bytes : Nat)
    (precision : Nat) : Option (List (Option (List Nat))) :=
  match column_reader with
  | AnyColumnView.text view => write_decimal view length_in_bytes precision
  | _ => none

/-- `DecimalAsBinary::copy_odbc_to_parquet` (decimal.rs, lines 121-134):
delegates to `write_decimal_col` with the strategy's `length_in_bytes` and
`precision`. -/
def DecimalAsBinary.copy_odbc_to_parquet (length_in_bytes : Nat) (precision : Nat)
    (column_view : AnyColumnView) : Option (List (Option (List Nat))) :=
  write_decimal_col column_view length_in_bytes precision

/-- Wrap-around of Rust's unchecked `i64` arithmetic in release builds: the
value reduced into the signed 64-bit range `[-2^63, 2^63)`. -/
def wrapI64 (x : Int) : Int := (x + 2 ^ 63) % 2 ^ 64 - 2 ^ 63

/-- Digit-accumulating loop of `i64::from_radix_10_signed` from the `atoi`
dependency: consumes the longest leading run of ASCII digits, stopping at
the first non-digit.  Each step is the i64 multiply-then-add-signed-digit
`number = number * 10; number += sign * digit`, performed in wrapping
64-bit arithmetic — the release-build semantics of the source's unchecked
i64 operations (a debug build would abort on the same overflow).  Returns
the accumulated value and the count of characters consumed. -/
def fromRadix10Aux (sign : Int) : List Char → Int → Int × Nat
  | [], acc => (acc, 0)
  | c :: cs, acc =>
    match digitVal c with
    | some d =>
        let acc' := wrapI64 (wrapI64 (acc * 10) + sign * (d : Int))
        let r := fromRadix10Aux sign cs acc'
        (r.1, r.2 + 1)
    | none => (acc, 0)

/-- `i64::from_radix_10_signed` from the `atoi` dependency: an optional sign
character followed by the longest leading run of ASCII digits is parsed; the
result is the value accumulated in wrapping i64 arithmetic together with the
number of characters consumed.  It never fails: text with no leading digits
yields `(0, _)`. -/
def from_radix_10_signed (text : List Char) : Int × Nat :=
  match text with
  | '-' :: rest =>
      let r := fromRadix10Aux (-1) rest 0
      (r.1, r.2 + 1)
  | '+' :: rest =>
      let r := fromRadix10Aux 1 rest 0
      (r.1, r.2 + 1)
  | _ => fromRadix10Aux 1 text 0

/-- `I64FromText::copy_odbc_to_parquet` (decimal.rs, lines 207-227): requires
a `Text` view (any other variant aborts the process, modelled as `none`);
each non-null text is mapped through `i64::from_radix_10_signed(text).0` and
the resulting optional values are appended via
`ParquetBuffer::write_optional` (modelled from the spec as producing exactly
the listed entries, honoring null positions). -/
def I64FromText.copy_odbc_to_parquet (column_view : AnyColumnView) :
    Option (List (Option Int)) :=
  match column_view with
  | AnyColumnView.text view =>
      some (view.map (fun value => value.map (fun text => (from_radix_10_signed text).1)))
  | _ => none

/-- Modelled from the spec: the identical-i32 strategy's copy
(`src/query/identical.rs` is not among the sources) copies native values
directly, propagating null from the indicator, with no numeric
transformation; a view variant other than the requested one is a fatal
fault, modelled as `none`. -/
def identicalI32_copy (column_view : AnyColumnView) : Option (List (Option Int)) :=
  match column_view with
  | AnyColumnView.i32 view => some view
  | _ => none

/-- Modelled from the spec: the identical-i64 strategy's copy, as
`identicalI32_copy` but reading a native 64-bit integer view. -/
def identicalI64_copy (column_view : AnyColumnView) : Option (List (Option Int)) :=
  match column_view with
  | AnyColumnView.i64 view => some view
  | _ => none

/-- Opaque carrier for a raw 64-bit floating value stored in an `OptF64Column`;
the buffer code never interprets these bits. -/
structure F64Bits where
  bits : Nat
deriving DecidableEq, Repr

/-- Opaque carrier for a raw 32-bit floating value stored in an `OptF32Column`. -/
structure F32Bits where
  bits : Nat
deriving DecidableEq, Repr

/-- `odbc_api::sys::Date`. -/
structure Date where
  year : Int
  month : Nat
  day : Nat
deriving DecidableEq, Repr

/-- `odbc_api::sys::Timestamp`. -/
structure Timestamp where
  year : Int
  month : Nat
  day : Nat
  hour : Nat
  minute : Nat
  second : Nat
  fraction : Nat
deriving DecidableEq, Repr

/-- `AnyColumnBuffer` (odbc_buffer.rs, lines 25-34): one typed column of
fixed capacity.  Each variant stores, per row, the value merged with its
null indicator (`none` = NULL), which is exactly what the library's
`value_at` reads back.  Booleans appear already through `Bit::as_bool`. -/
inductive AnyColumnBuffer where
  | text (max_str_len : Nat) (rows : List (Option (List Char)))
  | f64 (rows : List (Option F64Bits))
  | f32 (rows : List (Option F32Bits))
  | date (rows : List (Option Date))
  | timestamp (rows : List (Option Timestamp))
  | i32 (rows : List (Option Int))
  | i64 (rows : List (Option Int))
  | bit (rows : List (Option Bool))
deriving DecidableEq, Repr

/-- `value_at(row_index)` on a typed column: the stored value at that row,
absent on a null indicator. -/
def valueAt {α : Type} (rows : List (Option α)) (row_index : Nat) : Option α :=
  rows.getD row_index none

/-- `OdbcBuffer` (odbc_buffer.rs, lines 109-113): the batch row-set buffer.
`num_rows_fetched` is the row count written by the most recent fetch. -/
structure OdbcBuffer where
  batch_size : Nat
  num_rows_fetched : Nat
  buffers : List AnyColumnBuffer

/-- `OdbcBuffer::num_rows_fetched` (odbc_buffer.rs, lines 124-126). -/
def OdbcBuffer.num_rows_fetched_fn (b : OdbcBuffer) : Nat :=
  b.num_rows_fetched

/-- `OdbcBuffer::text_column_it` (odbc_buffer.rs, lines 128-136): iterates
`value_at` over rows `0..num_rows_fetched` of the text column at
`col_index`; any other buffer variant panics (modelled as `none`, as is an
out-of-bounds index). -/
def OdbcBuffer.text_column_it (b : OdbcBuffer) (col_index : Nat) :
    Option (List (Option (List Char))) :=
  match b.buffers[col_index]? with
  | some (AnyColumnBuffer.text _ rows) =>
      some ((List.range b.num_rows_fetched).map (fun row_index => valueAt rows row_index))
  | _ => none

/-- `OdbcBuffer::f64_it` (odbc_buffer.rs, lines 138-147). -/
def OdbcBuffer.f64_it (b : OdbcBuffer) (col_index : Nat) :
    Option (List (Option F64Bits)) :=
  match b.buffers[col_index]? with
  | some (AnyColumnBuffer.f64 rows) =>
      some ((List.range b.num_rows_fetched).map (fun row_index => valueAt rows row_index))
  | _ => none

/-- `OdbcBuffer::f32_it` (odbc_buffer.rs, lines 149-158). -/
def OdbcBuffer.f32_it (b : OdbcBuffer) (col_index : Nat) :
    Option (List (Option F32Bits)) :=
  match b.buffers[col_index]? with
  | some (AnyColumnBuffer.f32 rows) =>
      some ((List.range b.num_rows_fetched).map (fun row_index => valueAt rows row_index))
  | _ => none

/-- `OdbcBuffer::i32_it` (odbc_buffer.rs, lines 160-169). -/
def OdbcBuffer.i32_it (b : OdbcBuffer) (col_index : Nat) :
    Option (List (Option Int)) :=
  match b.buffers[col_index]? with
  | some (AnyColumnBuffer.i32 rows) =>
      some ((List.range b.num_rows_fetched).map (fun row_index => valueAt rows row_index))
  | _ => none

/-- `OdbcBuffer::i64_it` (odbc_buffer.rs, lines 171-180). -/
def OdbcBuffer.i64_it (b : OdbcBuffer) (col_index : Nat) :
    Option (List (Option Int)) :=
  match b.buffers[col_index]? with
  | some (AnyColumnBuffer.i64 rows) =>
      some ((List.range b.num_rows_fetched).map (fun row_index => valueAt rows row_index))
  | _ => none

/-- `OdbcBuffer::date_it` (odbc_buffer.rs, lines 182-190). -/
def OdbcBuffer.date_it (b : OdbcBuffer) (col_index : Nat) :
    Option (List (Option Date)) :=
  match b.buffers[col_index]? with
  | some (AnyColumnBuffer.date rows) =>
      some ((List.range b.num_rows_fetched).map (fun row_index => valueAt rows row_index))
  | _ => none

/-- `OdbcBuffer::bool_it` (odbc_buffer.rs, lines 192-201). -/
def OdbcBuffer.bool_it (b : OdbcBuffer) (col_index : Nat) :
    Option (List (Option Bool)) :=
  match b.buffers[col_index]? with
  | some (AnyColumnBuffer.bit rows) =>
      some ((List.range b.num_rows_fetched).map (fun row_index => valueAt rows row_index))
  | _ => none

/-- `OdbcBuffer::timestamp_it` (odbc_buffer.rs, lines 203-214). -/
def OdbcBuffer.timestamp_it (b : OdbcBuffer) (col_index : Nat) :
    Option (List (Option Timestamp)) :=
  match b.buffers[col_index]? with
  | some (AnyColumnBuffer.timestamp rows) =>
      some ((List.range b.num_rows_fetched).map (fun row_index => valueAt rows row_index))
  | _ => none

/-- One observable operation issued to the external cursor by
`bind_to_cursor`. -/
inductive BindStep where
  | setRowArraySize (size : Nat)
  | setNumRowsFetched
  | bindCol (ordinal : Nat)
deriving DecidableEq, Repr

/-- The external cursor of the odbc-api dependency, abstracted as the
outcome each of its three operations would report (`ε` is the error type). -/
structure CursorModel (ε : Type) where
  setRowArraySizeResult : Nat → Except ε Unit
  setNumRowsFetchedResult : Except ε Unit
  bindColResult : Nat → Except ε Unit

/-- The column-binding loop of `bind_to_cursor`: binds `n` remaining columns,
the next one at ordinal `start + 1`, recording each attempted `bind_col` in
order and stopping at the first error (the `?` operator). -/
def bindColsFrom {ε : Type} (c : CursorModel ε) (start : Nat) :
    Nat → List BindStep × Except ε Unit
  | 0 => ([], Except.ok ())
  | n + 1 =>
    match c.bindColResult (start + 1) with
    | Except.error e => ([BindStep.bindCol (start + 1)], Except.error e)
    | Except.ok () =>
        let r := bindColsFrom c (start + 1) n
        (BindStep.bindCol (start + 1) :: r.1, r.2)

/-- `bind_to_cursor` (odbc_buffer.rs, lines 217-226): sets the requested row
array size to `batch_size`, registers `num_rows_fetched` as the row-count
destination, then binds each column buffer at its 1-based ordinal; every
step propagates its error via `?`, so nothing further is attempted after a
failure.  The result records the attempted steps in order together with the
final outcome. -/
def bind_to_cursor {ε : Type} (c : CursorModel ε) (b : OdbcBuffer) :
    List BindStep × Except ε Unit :=
  match c.setRowArraySizeResult b.batch_size with
  | Except.error e => ([BindStep.setRowArraySize b.batch_size], Except.error e)
  | Except.ok () =>
    match c.setNumRowsFetchedResult with
    | Except.error e =>
        ([BindStep.setRowArraySize b.batch_size, BindStep.setNumRowsFetched], Except.error e)
    | Except.ok () =>
        let r := bindColsFrom c 0 b.buffers.length
        (BindStep.setRowArraySize b.batch_size :: BindStep.setNumRowsFetched :: r.1, r.2)

theorem lengthInBytesExact_spec (p : Nat) :
    2 * 10 ^ p ≤ 2 ^ (8 * lengthInBytesExact p) := by
  unfold lengthInBytesExact
  exact Nat.find_spec (p := fun L => 2 * 10 ^ p ≤ 2 ^ (8 * L)) _

theorem lengthInBytesExact_le (p L : Nat) (h : 2 * 10 ^ p ≤ 2 ^ (8 * L)) :
    lengthInBytesExact p ≤ L := by
  unfold lengthInBytesExact
  exact Nat.find_min' _ h

theorem lengthInBytesExact_eq_of (p L : Nat) (h1 : 2 * 10 ^ p ≤ 2 ^ (8 * L))
    (h2 : ∀ m, m < L → ¬2 * 10 ^ p ≤ 2 ^ (8 * m)) : lengthInBytesExact p = L := by
  refine le_antisymm (lengthInBytesExact_le p L h1) ?_
  by_contra hlt
  push_neg at hlt
  exact h2 _ hlt (lengthInBytesExact_spec p)

theorem one_le_lengthInBytesExact (p : Nat) : 1 ≤ lengthInBytesExact p := by
  have hs := lengthInBytesExact_spec p
  rcases Nat.eq_zero_or_pos (lengthInBytesExact p) with h0 | h1
  · rw [h0] at hs
    have h10 : 1 ≤ 10 ^ p := Nat.one_le_pow _ _ (by norm_num)
    simp at hs
    omega
  · exact h1

set_option maxRecDepth 100000 in
set_option maxHeartbeats 4000000 in
theorem length_in_bytes_satisfies_exact_up_to_76 :
    ∀ p, p ≤ 76 →
      2 * 10 ^ p ≤ 2 ^ (8 * length_in_bytes p)
      ∧ ∀ m, m < length_in_bytes p → ¬2 * 10 ^ p ≤ 2 ^ (8 * m) := by decide

theorem lengthInBytesExact_eq_f64 (p : Nat) (hp : p ≤ 76) :
    lengthInBytesExact p = length_in_bytes p :=
  lengthInBytesExact_eq_of p _ (length_in_bytes_satisfies_exact_up_to_76 p hp).1
    (length_in_bytes_satisfies_exact_up_to_76 p hp).2

theorem logb_bound_of_pow (p L : Nat) (h : 2 * 10 ^ p ≤ 2 ^ (8 * L)) :
    (p : ℝ) * Real.logb 2 10 + 1 ≤ 8 * (L : ℝ) := by
  have hcast : ((2:ℝ) * 10 ^ p) ≤ (2:ℝ) ^ (8 * L) := by exact_mod_cast h
  have h10 : (0:ℝ) < 2 * 10 ^ p := by positivity
  have hlog := Real.logb_le_logb_of_le one_lt_two h10 hcast
  rw [Real.logb_mul (by norm_num) (by positivity), Real.logb_pow, Real.logb_pow,
    Real.logb_self_eq_one one_lt_two] at hlog
  push_cast at hlog
  linarith

theorem pow_bound_of_logb (p C : Nat) (h : (p : ℝ) * Real.logb 2 10 + 1 ≤ 8 * (C : ℝ)) :
    2 * 10 ^ p ≤ 2 ^ (8 * C) := by
  have h10 : (0:ℝ) < 2 * 10 ^ p := by positivity
  have hlog : Real.logb 2 ((2:ℝ) * 10 ^ p) ≤ ((8 * C : Nat) : ℝ) := by
    rw [Real.logb_mul (by norm_num) (by positivity), Real.logb_pow,
      Real.logb_self_eq_one one_lt_two]
    push_cast
    linarith
  have hle := (Real.logb_le_iff_le_rpow one_lt_two h10).mp hlog
  rw [Real.rpow_natCast] at hle
  exact_mod_cast hle

theorem logb_lt_of_pow_lt (a p : Nat) (h : 2 ^ a < 10 ^ p) :
    (a : ℝ) < (p : ℝ) * Real.logb 2 10 := by
  have hcast : ((2:ℝ) ^ a) < (10:ℝ) ^ p := by exact_mod_cast h
  have hlog := Real.logb_lt_logb one_lt_two (by positivity) hcast
  rwa [Real.logb_pow, Real.logb_pow, Real.logb_self_eq_one one_lt_two, mul_one] at hlog

theorem logb_le_of_pow_le (p a : Nat) (h : 10 ^ p ≤ 2 ^ a) :
    (p : ℝ) * Real.logb 2 10 ≤ (a : ℝ) := by
  have hcast : ((10:ℝ) ^ p) ≤ (2:ℝ) ^ a := by exact_mod_cast h
  have hlog := Real.logb_le_logb_of_le one_lt_two (by positivity) hcast
  rwa [Real.logb_pow, Real.logb_pow, Real.logb_self_eq_one one_lt_two, mul_one] at hlog

set_option exponentiation.threshold 700000000 in
set_option maxRecDepth 10000 in
set_option maxHeartbeats 1000000000 in
theorem ten_pow_critical_bounds :
    2 ^ 683689383 < 10 ^ 205811012 ∧ 10 ^ 205811012 < 2 ^ 683689384 := by
  have he10 : 10000000 * 20 + 5811012 = 205811012 := by norm_num
  have he2l : 10000000 * 68 + 3689383 = 683689383 := by norm_num
  have he2u : 10000000 * 68 + 3689384 = 683689384 := by norm_num
  have e10 : ((10:Nat) ^ 10000000) ^ 20 * 10 ^ 5811012 = 10 ^ 205811012 := by
    rw [← pow_mul, ← pow_add, he10]
  have e2l : ((2:Nat) ^ 10000000) ^ 68 * 2 ^ 3689383 = 2 ^ 683689383 := by
    rw [← pow_mul, ← pow_add, he2l]
  have e2u : ((2:Nat) ^ 10000000) ^ 68 * 2 ^ 3689384 = 2 ^ 683689384 := by
    rw [← pow_mul, ← pow_add, he2u]
  have hl : ((2:Nat) ^ 10000000) ^ 68 * 2 ^ 3689383
      < ((10:Nat) ^ 10000000) ^ 20 * 10 ^ 5811012 := by decide
  have hu : ((10:Nat) ^ 10000000) ^ 20 * 10 ^ 5811012
      < ((2:Nat) ^ 10000000) ^ 68 * 2 ^ 3689384 := by decide
  rw [e10, e2l] at hl
  rw [e10, e2u] at hu
  exact ⟨hl, hu⟩

/-- Claim C2 counterexample: at precision 205811012 the source's f64 chain
computes 85461173 while the exact formula gives
`⌈(205811012 * log2 10 + 1) / 8⌉ = 85461174`, so the computed byte length
does not equal the spec's ceiling formula at every precision ≥ 1. -/
theorem c2_counterexample_f64_below_ceiling :
    length_in_bytes 205811012 = 85461173
    ∧ ⌈((205811012 : ℝ) * Real.logb 2 10 + 1) / 8⌉₊ = 85461174
    ∧ length_in_bytes 205811012 ≠ ⌈((205811012 : ℝ) * Real.logb 2 10 + 1) / 8⌉₊ := by
  have hf : length_in_bytes 205811012 = 85461173 := by decide
  have hlow := logb_lt_of_pow_lt 683689383 205811012 ten_pow_critical_bounds.1
  have hhigh := logb_le_of_pow_le 205811012 683689384 (le_of_lt ten_pow_critical_bounds.2)
  push_cast at hlow hhigh
  have hceil : ⌈((205811012 : ℝ) * Real.logb 2 10 + 1) / 8⌉₊ = 85461174 := by
    rw [Nat.ceil_eq_iff (by norm_num)]
    constructor
    · rw [show (85461174 : ℕ) - 1 = 85461173 from by norm_num]
      rw [lt_div_iff₀ (by norm_num : (0:ℝ) < 8)]
      push_cast
      linarith
    · rw [div_le_iff₀ (by norm_num : (0:ℝ) < 8)]
      push_cast
      linarith
  exact ⟨hf, hceil, by rw [hf, hceil]; norm_num⟩

/-- Claim C2 (amended): for every precision in [1, 76] — double the largest
mainstream SQL decimal precision; the source's f64 chain first deviates from
the exact formula only at far larger precisions such as 205811012 — the byte
length computed by `DecimalAsBinary::new` equals
`ceil((precision * log2 10 + 1) / 8)`, is at least 1, is monotonically
non-decreasing in precision within the range, satisfies
`length_in_bytes * 8 ≥ precision * log2 10 + 1`, and precision 5 gives 3
while precision 20 gives 9. -/
theorem c2_length_in_bytes_formula (p : Nat) (hp : 1 ≤ p) (hp76 : p ≤ 76) :
    length_in_bytes p = ⌈((p : ℝ) * Real.logb 2 10 + 1) / 8⌉₊
    ∧ 1 ≤ length_in_bytes p
    ∧ (∀ q, p ≤ q → q ≤ 76 → length_in_bytes p ≤ length_in_bytes q)
    ∧ (p : ℝ) * Real.logb 2 10 + 1 ≤ (length_in_bytes p : ℝ) * 8
    ∧ length_in_bytes 5 = 3
    ∧ length_in_bytes 20 = 9 := by
  have hpe := lengthInBytesExact_eq_f64 p hp76
  have hrealE := logb_bound_of_pow p (lengthInBytesExact p) (lengthInBytesExact_spec p)
  have hceilE : lengthInBytesExact p = ⌈((p : ℝ) * Real.logb 2 10 + 1) / 8⌉₊ := by
    refine le_antisymm ?_ ?_
    · refine lengthInBytesExact_le p _ (pow_bound_of_logb p _ ?_)
      have hceil := Nat.le_ceil (((p : ℝ) * Real.logb 2 10 + 1) / 8)
      rw [div_le_iff₀ (by norm_num : (0:ℝ) < 8)] at hceil
      linarith
    · rw [Nat.ceil_le, div_le_iff₀ (by norm_num : (0:ℝ) < 8)]
      linarith
  refine ⟨hpe ▸ hceilE, hpe ▸ one_le_lengthInBytesExact p, ?_, ?_, by decide, by decide⟩
  · intro q hq hq76
    rw [← hpe, ← lengthInBytesExact_eq_f64 q hq76]
    refine lengthInBytesExact_le p _ (le_trans ?_ (lengthInBytesExact_spec q))
    exact Nat.mul_le_mul_left 2 (Nat.pow_le_pow_right (by norm_num) hq)
  · rw [← hpe]
    linarith

/-- Witness for C2 at precision 5. -/
theorem c2_length_in_bytes_formula_witness :
    1 ≤ 5 ∧ 5 ≤ 76 ∧ length_in_bytes 5 = 3 :=
  ⟨by norm_num, by norm_num,
    (c2_length_in_bytes_formula 5 (by norm_num) (by norm_num)).2.2.2.2.1⟩

theorem natToBytesBE_length (len : Nat) : ∀ m, (natToBytesBE len m).length = len := by
  induction len with
  | zero => intro m; rfl
  | succ n ih =>
      intro m
      simp [natToBytesBE, ih]

theorem bytesToNatBE_natToBytesBE (len : Nat) :
    ∀ m, m < 2 ^ (8 * len) → bytesToNatBE (natToBytesBE len m) = m := by
  induction len with
  | zero =>
      intro m hm
      simp [natToBytesBE, bytesToNatBE]
      omega
  | succ n ih =>
      intro m hm
      have hpow : (2:Nat) ^ (8 * (n + 1)) = 2 ^ (8 * n) * 256 := by
        rw [show 8 * (n + 1) = 8 * n + 8 by ring, pow_add]
        norm_num
      have hdiv : m / 256 < 2 ^ (8 * n) := by
        rw [Nat.div_lt_iff_lt_mul (by norm_num)]
        omega
      have hrec := ih (m / 256) hdiv
      unfold natToBytesBE bytesToNatBE
      rw [List.foldl_append]
      unfold bytesToNatBE at hrec
      rw [hrec]
      simp only [List.foldl]
      omega

theorem two_pow_pred (n : Nat) (hn : 1 ≤ n) : (2:Nat) ^ n = 2 * 2 ^ (n - 1) := by
  obtain ⟨k, hk⟩ : ∃ k, n = k + 1 := ⟨n - 1, by omega⟩
  rw [hk, Nat.add_sub_cancel, pow_succ]
  ring

theorem decode_encode_twos_complement (len : Nat) (hlen : 1 ≤ len) (v : Int)
    (h1 : -((2 ^ (8 * len - 1) : Nat) : Int) ≤ v)
    (h2 : v < ((2 ^ (8 * len - 1) : Nat) : Int)) :
    decodeTwosComplementBE (encodeTwosComplementBE len v) = v := by
  have hNK : (2:Nat) ^ (8 * len) = 2 * 2 ^ (8 * len - 1) := two_pow_pred _ (by omega)
  have hNKi : ((2 ^ (8 * len) : Nat) : Int) = 2 * ((2 ^ (8 * len - 1) : Nat) : Int) := by
    exact_mod_cast hNK
  have hNpos : (0:Int) < ((2 ^ (8 * len) : Nat) : Int) := by positivity
  have hmod_nonneg : 0 ≤ v % ((2 ^ (8 * len) : Nat) : Int) :=
    Int.emod_nonneg v (by omega)
  have hmod_lt : v % ((2 ^ (8 * len) : Nat) : Int) < ((2 ^ (8 * len) : Nat) : Int) :=
    Int.emod_lt_of_pos v hNpos
  have hm_lt : (v % ((2 ^ (8 * len) : Nat) : Int)).toNat < 2 ^ (8 * len) := by omega
  have hmval : v % ((2 ^ (8 * len) : Nat) : Int) = v ∨
      v % ((2 ^ (8 * len) : Nat) : Int) = v + ((2 ^ (8 * len) : Nat) : Int) := by
    rcases le_or_lt 0 v with h0 | h0
    · left
      exact Int.emod_eq_of_lt h0 (by omega)
    · right
      have hshift : (v + ((2 ^ (8 * len) : Nat) : Int)) % ((2 ^ (8 * len) : Nat) : Int)
          = v % ((2 ^ (8 * len) : Nat) : Int) := by
        simpa using Int.add_mul_emod_self_left (a := v)
          (b := ((2 ^ (8 * len) : Nat) : Int)) (c := 1)
      rw [← hshift]
      exact Int.emod_eq_of_lt (by omega) (by omega)
  have hpowN : (2:Int) ^ (8 * len) = ((2 ^ (8 * len) : Nat) : Int) := by
    push_cast
    ring
  have hpowK : (2:Int) ^ (8 * len - 1) = ((2 ^ (8 * len - 1) : Nat) : Int) := by
    push_cast
    ring
  unfold encodeTwosComplementBE decodeTwosComplementBE
  rw [natToBytesBE_length, bytesToNatBE_natToBytesBE len _ hm_lt]
  rcases hmval with hv | hv
  · rw [hv]
    rw [if_neg (by omega)]
    omega
  · rw [hv]
    rw [if_pos (by omega)]
    omega

theorem ten_pow_le_half_pow (p : Nat) :
    10 ^ p ≤ 2 ^ (8 * lengthInBytesExact p - 1) := by
  have hs := lengthInBytesExact_spec p
  have h1 := one_le_lengthInBytesExact p
  have hNK : (2:Nat) ^ (8 * lengthInBytesExact p)
      = 2 * 2 ^ (8 * lengthInBytesExact p - 1) :=
    two_pow_pred _ (by omega)
  omega

theorem decode_encode_overflow (len : Nat) (hlen : 1 ≤ len) (v : Int)
    (h1 : ((2 ^ (8 * len - 1) : Nat) : Int) ≤ v)
    (h2 : v < ((2 ^ (8 * len) : Nat) : Int)) :
    decodeTwosComplementBE (encodeTwosComplementBE len v)
      = v - ((2 ^ (8 * len) : Nat) : Int) := by
  have hNK : (2:Nat) ^ (8 * len) = 2 * 2 ^ (8 * len - 1) := two_pow_pred _ (by omega)
  have hNKi : ((2 ^ (8 * len) : Nat) : Int) = 2 * ((2 ^ (8 * len - 1) : Nat) : Int) := by
    exact_mod_cast hNK
  have h0 : (0:Int) ≤ v := le_trans (by positivity) h1
  have hmod : v % ((2 ^ (8 * len) : Nat) : Int) = v := Int.emod_eq_of_lt h0 h2
  have hm_lt : (v % ((2 ^ (8 * len) : Nat) : Int)).toNat < 2 ^ (8 * len) := by omega
  have hpowN : (2:Int) ^ (8 * len) = ((2 ^ (8 * len) : Nat) : Int) := by
    push_cast
    ring
  unfold encodeTwosComplementBE decodeTwosComplementBE
  rw [natToBytesBE_length, bytesToNatBE_natToBytesBE len _ hm_lt, hmod]
  rw [if_pos (by omega)]
  omega

theorem parseDigits_go_replicate_nine (n : Nat) :
    ∀ acc, parseDigits.go (List.replicate n '9') acc
      = some (acc * 10 ^ n + (10 ^ n - 1)) := by
  induction n with
  | zero =>
      intro acc
      simp [parseDigits.go]
  | succ m ih =>
      intro acc
      rw [List.replicate_succ]
      have h9 : digitVal '9' = some 9 := by decide
      simp only [parseDigits.go, h9]
      rw [ih (acc * 10 + 9)]
      have hA1 : 1 ≤ (10:Nat) ^ m := Nat.one_le_pow _ _ (by norm_num)
      have hA10 : 1 ≤ (10:Nat) ^ m * 10 := by
        have := Nat.mul_le_mul hA1 (show 1 ≤ 10 by norm_num)
        omega
      congr 1
      rw [pow_succ]
      zify [hA1, hA10]
      ring

theorem parseDigits_replicate_nine (n : Nat) (hn : 1 ≤ n) :
    parseDigits (List.replicate n '9') = some (10 ^ n - 1) := by
  obtain ⟨m, rfl⟩ : ∃ m, n = m + 1 := ⟨n - 1, by omega⟩
  have hgo := parseDigits_go_replicate_nine (m + 1) 0
  rw [List.replicate_succ] at hgo ⊢
  show parseDigits.go ('9' :: List.replicate m '9') 0 = some (10 ^ (m + 1) - 1)
  rw [hgo]
  simp

theorem decimalTextToInt_replicate_nine (n : Nat) (hn : 1 ≤ n) :
    decimalTextToInt (List.replicate n '9') = some ((10 ^ n - 1 : Nat) : Int) := by
  have hfilter : (List.replicate n '9').filter (fun c => c ≠ '.')
      = List.replicate n '9' := by
    apply List.filter_eq_self.mpr
    intro a ha
    rw [List.eq_of_mem_replicate ha]
    decide
  obtain ⟨m, rfl⟩ : ∃ m, n = m + 1 := ⟨n - 1, by omega⟩
  unfold decimalTextToInt
  rw [hfilter, List.replicate_succ]
  show (parseDigits ('9' :: List.replicate m '9')).map (fun k => (k : Int))
      = some ((10 ^ (m + 1) - 1 : Nat) : Int)
  rw [← List.replicate_succ, parseDigits_replicate_nine (m + 1) (by omega)]
  simp

theorem mapM_option_pointwise {α β : Type} (f : α → Option β) :
    ∀ (vs : List α) (out : List β), vs.mapM f = some out →
      out.length = vs.length ∧ ∀ (j : Nat) (a : α), vs[j]? = some a → out[j]? = f a := by
  intro vs
  induction vs with
  | nil =>
      intro out h
      rw [List.mapM_nil] at h
      cases h
      refine ⟨rfl, ?_⟩
      intro j a hj
      simp at hj
  | cons hd tl ih =>
      intro out h
      rw [List.mapM_cons] at h
      cases hfa : f hd with
      | none => rw [hfa] at h; simp at h
      | some b =>
          rw [hfa] at h
          cases hmt : tl.mapM f with
          | none => rw [hmt] at h; simp at h
          | some bs =>
              rw [hmt] at h
              simp at h
              subst h
              obtain ⟨hlen, hpt⟩ := ih bs hmt
              refine ⟨by simp [hlen], ?_⟩
              intro j a hj
              cases j with
              | zero =>
                  rw [List.getElem?_cons_zero] at hj ⊢
                  cases hj
                  rw [hfa]
              | succ n =>
                  rw [List.getElem?_cons_succ] at hj ⊢
                  exact hpt n a hj

/-- Claim C3 counterexample: at precision 205811012 the f64-computed byte
length 85461173 is one byte short of the exact requirement, and the
well-formed maximal decimal text of that precision — 205811012 nines, whose
scaled integer is 10^205811012 − 1 — does not survive the round trip:
encoding at the strategy's `length_in_bytes` and then decoding yields a
different (negative) value. -/
theorem c3_counterexample_boundary_value :
    decimalTextToInt (List.replicate 205811012 '9')
        = some ((10 ^ 205811012 - 1 : Nat) : Int)
    ∧ length_in_bytes 205811012 = 85461173
    ∧ decodeTwosComplementBE (encodeTwosComplementBE (length_in_bytes 205811012)
          ((10 ^ 205811012 - 1 : Nat) : Int))
        ≠ ((10 ^ 205811012 - 1 : Nat) : Int) := by
  have hlen : length_in_bytes 205811012 = 85461173 := by decide
  have hlow := ten_pow_critical_bounds.1
  have hhigh := ten_pow_critical_bounds.2
  refine ⟨decimalTextToInt_replicate_nine 205811012 (by norm_num), hlen, ?_⟩
  rw [hlen]
  have h1 : ((2 ^ (8 * 85461173 - 1) : Nat) : Int) ≤ ((10 ^ 205811012 - 1 : Nat) : Int) := by
    have hb : (2:Nat) ^ (8 * 85461173 - 1) ≤ 10 ^ 205811012 - 1 := by
      rw [show 8 * 85461173 - 1 = 683689383 from by norm_num]
      exact Nat.le_sub_one_of_lt hlow
    exact_mod_cast hb
  have h2 : ((10 ^ 205811012 - 1 : Nat) : Int) < ((2 ^ (8 * 85461173) : Nat) : Int) := by
    have hb : (10:Nat) ^ 205811012 - 1 < 2 ^ (8 * 85461173) := by
      rw [show 8 * 85461173 = 683689384 from by norm_num]
      exact Nat.lt_of_le_of_lt (Nat.sub_le _ 1) hhigh
    exact_mod_cast hb
  rw [decode_encode_overflow 85461173 (by norm_num) _ h1 h2]
  have hNpos : (0:Int) < ((2 ^ (8 * 85461173) : Nat) : Int) := by positivity
  intro hcontra
  exact absurd (sub_eq_self.mp hcontra) (ne_of_gt hNpos)

/-- Claim C3 (amended): precision 5 with the value −12345 encodes to exactly
`length_in_bytes 5 = 3` big-endian two's-complement bytes and decodes back to
−12345; for every precision in [1, 76] — where the f64-computed byte length
agrees with the exact formula — every well-formed decimal text, parsed to a
scaled integer of at most `precision` digits, encodes into exactly
`length_in_bytes` big-endian two's-complement bytes and decodes back to the
same integer (at larger precisions such as 205811012 the computed length can
fall one byte short and boundary values no longer round-trip); and a null
source value produces an absent column entry with no bytes written. -/
theorem c3_binary_codec_roundtrip :
    (length_in_bytes 5 = 3
      ∧ write_decimal_col (AnyColumnView.text [some ['-','1','2','3','4','5']]) 3 5
          = some [some [255, 207, 199]]
      ∧ decodeTwosComplementBE [255, 207, 199] = -12345)
    ∧ (∀ (p : Nat) (text : List Char) (v : Int),
        1 ≤ p → p ≤ 76 →
        decimalTextToInt text = some v → v.natAbs < 10 ^ p →
          (encodeTwosComplementBE (length_in_bytes p) v).length = length_in_bytes p
          ∧ decodeTwosComplementBE (encodeTwosComplementBE (length_in_bytes p) v) = v)
    ∧ (∀ (values : List (Option (List Char))) (len prec : Nat)
        (out : List (Option (List Nat))) (j : Nat),
          write_decimal values len prec = some out → values[j]? = some none →
            out[j]? = some none) := by
  refine ⟨⟨by decide, by decide, by decide⟩, ?_, ?_⟩
  · intro p text v _ hp76 _ hva
    rw [← lengthInBytesExact_eq_f64 p hp76]
    have hK := ten_pow_le_half_pow p
    have hb1 : -((2 ^ (8 * lengthInBytesExact p - 1) : Nat) : Int) ≤ v := by
      have hv : ((v.natAbs : Nat) : Int) < ((10 ^ p : Nat) : Int) := by exact_mod_cast hva
      have hkk : ((10 ^ p : Nat) : Int)
          ≤ ((2 ^ (8 * lengthInBytesExact p - 1) : Nat) : Int) := by
        exact_mod_cast hK
      omega
    have hb2 : v < ((2 ^ (8 * lengthInBytesExact p - 1) : Nat) : Int) := by
      have hv : ((v.natAbs : Nat) : Int) < ((10 ^ p : Nat) : Int) := by exact_mod_cast hva
      have hkk : ((10 ^ p : Nat) : Int)
          ≤ ((2 ^ (8 * lengthInBytesExact p - 1) : Nat) : Int) := by
        exact_mod_cast hK
      omega
    refine ⟨?_, decode_encode_twos_complement _ (one_le_lengthInBytesExact p) v hb1 hb2⟩
    unfold encodeTwosComplementBE
    exact natToBytesBE_length _ _
  · intro values len prec out j hw hj
    have := (mapM_option_pointwise _ values out hw).2 j none hj
    simpa using this

/-- Witness for C3's general round trip at precision 5, text "-12345". -/
theorem c3_binary_codec_roundtrip_witness :
    decodeTwosComplementBE (encodeTwosComplementBE (length_in_bytes 5) (-12345)) = -12345 :=
  (c3_binary_codec_roundtrip.2.1 5 ['-','1','2','3','4','5'] (-12345)
    (by norm_num) (by norm_num) (by decide) (by decide)).2

theorem range_map_valueAt {α : Type} (R : Nat) (rows : List (Option α)) :
    ((List.range R).map (fun r => valueAt rows r)).length = R
    ∧ ∀ j, j < R →
        ((List.range R).map (fun r => valueAt rows r))[j]? = some (valueAt rows j) := by
  refine ⟨by simp, ?_⟩
  intro j hj
  rw [List.getElem?_map, List.getElem?_range hj]
  rfl

/-- Claim C4: after a fetch that set `num_rows_fetched` to `R` with
`R ≤ batch_size`, every matching per-type accessor yields exactly `R`
optional values, the entry at row `j < R` being exactly that row's stored
optional value (so rows at index ≥ R are never yielded). -/
theorem c4_accessors_yield_fetched_rows (b : OdbcBuffer) (i : Nat)
    (hR : b.num_rows_fetched ≤ b.batch_size) :
    (∀ len rows, b.buffers[i]? = some (AnyColumnBuffer.text len rows) →
      ∃ out, b.text_column_it i = some out
        ∧ out.length = b.num_rows_fetched
        ∧ ∀ j, j < b.num_rows_fetched → out[j]? = some (valueAt rows j))
    ∧ (∀ rows, b.buffers[i]? = some (AnyColumnBuffer.f64 rows) →
      ∃ out, b.f64_it i = some out
        ∧ out.length = b.num_rows_fetched
        ∧ ∀ j, j < b.num_rows_fetched → out[j]? = some (valueAt rows j))
    ∧ (∀ rows, b.buffers[i]? = some (AnyColumnBuffer.f32 rows) →
      ∃ out, b.f32_it i = some out
        ∧ out.length = b.num_rows_fetched
        ∧ ∀ j, j < b.num_rows_fetched → out[j]? = some (valueAt rows j))
    ∧ (∀ rows, b.buffers[i]? = some (AnyColumnBuffer.i32 rows) →
      ∃ out, b.i32_it i = some out
        ∧ out.length = b.num_rows_fetched
        ∧ ∀ j, j < b.num_rows_fetched → out[j]? = some (valueAt rows j))
    ∧ (∀ rows, b.buffers[i]? = some (AnyColumnBuffer.i64 rows) →
      ∃ out, b.i64_it i = some out
        ∧ out.length = b.num_rows_fetched
        ∧ ∀ j, j < b.num_rows_fetched → out[j]? = some (valueAt rows j))
    ∧ (∀ rows, b.buffers[i]? = some (AnyColumnBuffer.date rows) →
      ∃ out, b.date_it i = some out
        ∧ out.length = b.num_rows_fetched
        ∧ ∀ j, j < b.num_rows_fetched → out[j]? = some (valueAt rows j))
    ∧ (∀ rows, b.buffers[i]? = some (AnyColumnBuffer.bit rows) →
      ∃ out, b.bool_it i = some out
        ∧ out.length = b.num_rows_fetched
        ∧ ∀ j, j < b.num_rows_fetched → out[j]? = some (valueAt rows j))
    ∧ (∀ rows, b.buffers[i]? = some (AnyColumnBuffer.timestamp rows) →
      ∃ out, b.timestamp_it i = some out
        ∧ out.length = b.num_rows_fetched
        ∧ ∀ j, j < b.num_rows_fetched → out[j]? = some (valueAt rows j)) := by
  refine ⟨?_, ?_, ?_, ?_, ?_, ?_, ?_, ?_⟩
  · intro len rows hb
    refine ⟨_, ?_, (range_map_valueAt _ rows).1, (range_map_valueAt _ rows).2⟩
    unfold OdbcBuffer.text_column_it
    rw [hb]
  · intro rows hb
    refine ⟨_, ?_, (range_map_valueAt _ rows).1, (range_map_valueAt _ rows).2⟩
    unfold OdbcBuffer.f64_it
    rw [hb]
  · intro rows hb
    refine ⟨_, ?_, (range_map_valueAt _ rows).1, (range_map_valueAt _ rows).2⟩
    unfold OdbcBuffer.f32_it
    rw [hb]
  · intro rows hb
    refine ⟨_, ?_, (range_map_valueAt _ rows).1, (range_map_valueAt _ rows).2⟩
    unfold OdbcBuffer.i32_it
    rw [hb]
  · intro rows hb
    refine ⟨_, ?_, (range_map_valueAt _ rows).1, (range_map_valueAt _ rows).2⟩
    unfold OdbcBuffer.i64_it
    rw [hb]
  · intro rows hb
    refine ⟨_, ?_, (range_map_valueAt _ rows).1, (range_map_valueAt _ rows).2⟩
    unfold OdbcBuffer.date_it
    rw [hb]
  · intro rows hb
    refine ⟨_, ?_, (range_map_valueAt _ rows).1, (range_map_valueAt _ rows).2⟩
    unfold OdbcBuffer.bool_it
    rw [hb]
  · intro rows hb
    refine ⟨_, ?_, (range_map_valueAt _ rows).1, (range_map_valueAt _ rows).2⟩
    unfold OdbcBuffer.timestamp_it
    rw [hb]

/-- Witness for C4: batch_size 3, an I32 column whose fetch returned 2 rows
with source values [42, NULL] — the accessor yields [some 42, none], of
length 2. -/
theorem c4_accessors_yield_fetched_rows_witness :
    (∃ out, OdbcBuffer.i32_it ⟨3, 2, [AnyColumnBuffer.i32 [some 42, none, none]]⟩ 0 = some out
        ∧ out.length = 2
        ∧ ∀ j, j < 2 → out[j]? = some (valueAt [some 42, none, none] j))
    ∧ OdbcBuffer.i32_it ⟨3, 2, [AnyColumnBuffer.i32 [some 42, none, none]]⟩ 0
        = some [some 42, none] := by
  constructor
  · exact (c4_accessors_yield_fetched_rows ⟨3, 2, [AnyColumnBuffer.i32 [some 42, none, none]]⟩
      0 (by norm_num)).2.2.2.1 [some 42, none, none] rfl
  · decide

/-- Claim C5: a type-mismatched accessor never returns values (the panic is
modelled as `none`), and each strategy's copy fails without writing anything
whenever the view's runtime variant differs from the one its
`buffer_description()` requested (Text for `DecimalAsBinary` and
`I64FromText`; I32/I64 for the spec-modelled identical strategies). -/
theorem c5_mismatched_access_fails (b : OdbcBuffer) (i : Nat) :
    ((∀ len rows, b.buffers[i]? ≠ some (AnyColumnBuffer.text len rows)) →
        b.text_column_it i = none)
    ∧ ((∀ rows, b.buffers[i]? ≠ some (AnyColumnBuffer.f64 rows)) → b.f64_it i = none)
    ∧ ((∀ rows, b.buffers[i]? ≠ some (AnyColumnBuffer.f32 rows)) → b.f32_it i = none)
    ∧ ((∀ rows, b.buffers[i]? ≠ some (AnyColumnBuffer.i32 rows)) → b.i32_it i = none)
    ∧ ((∀ rows, b.buffers[i]? ≠ some (AnyColumnBuffer.i64 rows)) → b.i64_it i = none)
    ∧ ((∀ rows, b.buffers[i]? ≠ some (AnyColumnBuffer.date rows)) → b.date_it i = none)
    ∧ ((∀ rows, b.buffers[i]? ≠ some (AnyColumnBuffer.bit rows)) → b.bool_it i = none)
    ∧ ((∀ rows, b.buffers[i]? ≠ some (AnyColumnBuffer.timestamp rows)) →
        b.timestamp_it i = none)
    ∧ (∀ (view : AnyColumnView) (len prec : Nat),
        (∀ vs, view ≠ AnyColumnView.text vs) → write_decimal_col view len prec = none)
    ∧ (∀ view : AnyColumnView, (∀ vs, view ≠ AnyColumnView.text vs) →
        I64FromText.copy_odbc_to_parquet view = none)
    ∧ (∀ view : AnyColumnView, (∀ vs, view ≠ AnyColumnView.i32 vs) →
        identicalI32_copy view = none)
    ∧ (∀ view : AnyColumnView, (∀ vs, view ≠ AnyColumnView.i64 vs) →
        identicalI64_copy view = none) := by
  refine ⟨?_, ?_, ?_, ?_, ?_, ?_, ?_, ?_, ?_, ?_, ?_, ?_⟩
  · intro hne
    unfold OdbcBuffer.text_column_it
    rcases hb : b.buffers[i]? with _ | buf
    · rfl
    · cases buf <;> first | rfl | exact absurd hb (hne _ _)
  · intro hne
    unfold OdbcBuffer.f64_it
    rcases hb : b.buffers[i]? with _ | buf
    · rfl
    · cases buf <;> first | rfl | exact absurd hb (hne _)
  · intro hne
    unfold OdbcBuffer.f32_it
    rcases hb : b.buffers[i]? with _ | buf
    · rfl
    · cases buf <;> first | rfl | exact absurd hb (hne _)
  · intro hne
    unfold OdbcBuffer.i32_it
    rcases hb : b.buffers[i]? with _ | buf
    · rfl
    · cases buf <;> first | rfl | exact absurd hb (hne _)
  · intro hne
    unfold OdbcBuffer.i64_it
    rcases hb : b.buffers[i]? with _ | buf
    · rfl
    · cases buf <;> first | rfl | exact absurd hb (hne _)
  · intro hne
    unfold OdbcBuffer.date_it
    rcases hb : b.buffers[i]? with _ | buf
    · rfl
    · cases buf <;> first | rfl | exact absurd hb (hne _)
  · intro hne
    unfold OdbcBuffer.bool_it
    rcases hb : b.buffers[i]? with _ | buf
    · rfl
    · cases buf <;> first | rfl | exact absurd hb (hne _)
  · intro hne
    unfold OdbcBuffer.timestamp_it
    rcases hb : b.buffers[i]? with _ | buf
    · rfl
    · cases buf <;> first | rfl | exact absurd hb (hne _)
  · intro view len prec hne
    cases view <;> first | rfl | exact absurd rfl (hne _)
  · intro view hne
    cases view <;> first | rfl | exact absurd rfl (hne _)
  · intro view hne
    cases view <;> first | rfl | exact absurd rfl (hne _)
  · intro view hne
    cases view <;> first | rfl | exact absurd rfl (hne _)

/-- Witness for C5: a text buffer accessed through the i32 accessor yields
no values, and `write_decimal_col` on an I32 view writes nothing. -/
theorem c5_mismatched_access_fails_witness :
    OdbcBuffer.i32_it ⟨1, 1, [AnyColumnBuffer.text 7 [some ['4','2']]]⟩ 0 = none
    ∧ write_decimal_col (AnyColumnView.i32 [some 42]) 3 5 = none := by
  constructor
  · refine (c5_mismatched_access_fails ⟨1, 1, [AnyColumnBuffer.text 7 [some ['4','2']]]⟩ 0).2.2.2.1 ?_
    intro rows h
    simp at h
  · refine (c5_mismatched_access_fails ⟨1, 1, []⟩ 0).2.2.2.2.2.2.2.2.1
      (AnyColumnView.i32 [some 42]) 3 5 ?_
    intro vs h
    simp at h

/-- Claim C6 counterexample: the text `"abc"` is not a well-formed rendering
of a signed base-10 integer, yet `I64FromText::copy_odbc_to_parquet`
does not fail on it — it succeeds and writes the value 0 derived from the
malformed text. -/
theorem c6_counterexample_malformed_text_is_written :
    I64FromText.copy_odbc_to_parquet (AnyColumnView.text [some ['a','b','c']])
        = some [some 0]
    ∧ I64FromText.copy_odbc_to_parquet (AnyColumnView.text [some ['a','b','c']]) ≠ none := by
  constructor
  · decide
  · decide

/-- Claim C6 (amended): on a Text view the text-fallback-i64 copy never
fails; each non-null text — malformed or not — is written as the value
`i64::from_radix_10_signed` accumulates in wrapping 64-bit arithmetic over
the longest leading sign-and-digits run (0 when there is none), so malformed
text is silently converted rather than rejected, and runs of 19 or more
digits silently wrap around. -/
theorem c6_malformed_text_parsed_leniently (values : List (Option (List Char))) :
    ∃ out, I64FromText.copy_odbc_to_parquet (AnyColumnView.text values) = some out
      ∧ out.length = values.length
      ∧ ∀ (j : Nat) (text : List Char), values[j]? = some (some text) →
          out[j]? = some (some (from_radix_10_signed text).1) := by
  refine ⟨_, rfl, by simp, ?_⟩
  intro j text hj
  rw [List.getElem?_map, hj]
  rfl

set_option maxRecDepth 100000 in
/-- Witness for C6's amended claim: the malformed text `"12x"` is written as
12, and a 19-digit run (nineteen nines) — which fits the precision-17/18
text buffer but overflows i64 — is written as the wrapped value
−8446744073709551617, exactly as the release-build arithmetic produces. -/
theorem c6_malformed_text_parsed_leniently_witness :
    (∃ out,
      I64FromText.copy_odbc_to_parquet (AnyColumnView.text [some ['1','2','x']]) = some out
      ∧ out[0]? = some (some 12))
    ∧ (∃ out,
      I64FromText.copy_odbc_to_parquet
          (AnyColumnView.text [some (List.replicate 19 '9')]) = some out
      ∧ out[0]? = some (some (-8446744073709551617))) := by
  constructor
  · obtain ⟨out, hout, _, hpt⟩ := c6_malformed_text_parsed_leniently [some ['1','2','x']]
    refine ⟨out, hout, ?_⟩
    rw [hpt 0 ['1','2','x'] rfl]
    decide
  · obtain ⟨out, hout, _, hpt⟩ :=
      c6_malformed_text_parsed_leniently [some (List.replicate 19 '9')]
    refine ⟨out, hout, ?_⟩
    rw [hpt 0 (List.replicate 19 '9') rfl]
    decide

/-- Claim C1 counterexample: at precision 0, scale 0 — an "other" pair under
the claim's rows [1,9] and [10,18] — the selector yields the identical-i32
strategy, not the arbitrary-precision-binary one. -/
theorem c1_counterexample_precision_zero :
    decmial_fetch_strategy false 0 0 false = FetchStrategy.identicalI32 false 0
    ∧ (decmial_fetch_strategy false 0 0 false).kind ≠ StrategyKind.decimalAsBinary := by
  constructor
  · decide
  · decide

/-- Claim C1 (amended): the selector follows the source's table: precision
in [0,9] with scale 0 yields identical-i32 (INT32/DECIMAL, precision
preserved, scale 0); precision in [10,18] with scale 0 yields identical-i64
when the driver supports 64-bit fetches and the text-fallback-i64 strategy
otherwise, both with physical type INT64; every remaining (precision, scale)
pair yields the arbitrary-precision-binary strategy. -/
theorem c1_selector_table (o d : Bool) (p : Nat) (s : Int) :
    ((p ≤ 9 ∧ s = 0) →
      decmial_fetch_strategy o s p d = FetchStrategy.identicalI32 o (p : Int)
        ∧ (decmial_fetch_strategy o s p d).parquet_type
            = { physical := PhysicalType.int32, repetition := repetitionOf o,
                converted := ConvertedType.decimal, precision := (p : Int), scale := 0,
                length := none })
    ∧ ((10 ≤ p ∧ p ≤ 18 ∧ s = 0) →
        (d = true → decmial_fetch_strategy o s p d = FetchStrategy.identicalI64 o (p : Int))
        ∧ (d = false → decmial_fetch_strategy o s p d = FetchStrategy.i64FromText o (p : Int))
        ∧ (decmial_fetch_strategy o s p d).parquet_type.physical = PhysicalType.int64)
    ∧ (¬(p ≤ 9 ∧ s = 0) → ¬(10 ≤ p ∧ p ≤ 18 ∧ s = 0) →
        decmial_fetch_strategy o s p d
          = FetchStrategy.decimalAsBinary (repetitionOf o) s p (length_in_bytes p)) := by
  refine ⟨?_, ?_, ?_⟩
  · intro h
    unfold decmial_fetch_strategy
    rw [if_pos h]
    exact ⟨rfl, rfl⟩
  · intro h
    unfold decmial_fetch_strategy
    rw [if_neg (by omega), if_pos h]
    refine ⟨?_, ?_, ?_⟩
    · intro hd
      rw [hd, if_pos rfl]
    · intro hd
      rw [hd]
      rfl
    · cases d <;> rfl
  · intro h1 h2
    unfold decmial_fetch_strategy DecimalAsBinary.new
    rw [if_neg h1, if_neg h2]

/-- Witness for C1's amended table at precision 5/0, 12/0 (no 64-bit
support) and 20/2. -/
theorem c1_selector_table_witness :
    decmial_fetch_strategy true 0 5 true = FetchStrategy.identicalI32 true 5
    ∧ decmial_fetch_strategy true 0 12 false = FetchStrategy.i64FromText true 12
    ∧ decmial_fetch_strategy true 2 20 true
        = FetchStrategy.decimalAsBinary Repetition.optional 2 20 (length_in_bytes 20) := by
  refine ⟨((c1_selector_table true true 5 0).1 (by omega)).1, ?_, ?_⟩
  · exact ((c1_selector_table true false 12 0).2.1 (by omega)).2.1 rfl
  · exact (c1_selector_table true true 20 2).2.2 (by omega) (by omega)

/-- Claim C7: strategy selection is a pure function of (precision, scale,
native-64-bit capability) — calls differing only in `is_optional` produce
the same strategy kind, the same physical type and the same buffer
description kind. -/
theorem c7_selection_deterministic (o o' : Bool) (s : Int) (p : Nat) (d : Bool) :
    (decmial_fetch_strategy o s p d).kind = (decmial_fetch_strategy o' s p d).kind
    ∧ (decmial_fetch_strategy o s p d).parquet_type.physical
        = (decmial_fetch_strategy o' s p d).parquet_type.physical
    ∧ (decmial_fetch_strategy o s p d).buffer_description.kind
        = (decmial_fetch_strategy o' s p d).buffer_description.kind := by
  unfold decmial_fetch_strategy
  split_ifs <;> exact ⟨rfl, rfl, rfl⟩

/-- Claim C8: both strategies that stage decimals as text request a Text
buffer whose `max_str_len` is at least precision + 2 (sign and radix
characters included). -/
theorem c8_text_staging_never_truncates (o : Bool) (p : Nat) (s : Int) (hs : 0 ≤ s) :
    (∃ msl, (DecimalAsBinary.new (repetitionOf o) s p).buffer_description.kind
        = BufferKind.text msl ∧ p + 2 ≤ msl)
    ∧ (10 ≤ p → p ≤ 18 →
        ∃ msl, (FetchStrategy.i64FromText o (p : Int)).buffer_description.kind
            = BufferKind.text msl ∧ p + 2 ≤ msl) := by
  constructor
  · exact ⟨p + 2, rfl, le_refl _⟩
  · intro _ _
    refine ⟨p + 2, ?_, le_refl _⟩
    simp [FetchStrategy.buffer_description, decimalDisplaySize]

/-- Witness for C8 at precision 20, scale 2 and precision 12, scale 0. -/
theorem c8_text_staging_never_truncates_witness :
    (∃ msl, (DecimalAsBinary.new (repetitionOf true) 2 20).buffer_description.kind
        = BufferKind.text msl ∧ 22 ≤ msl)
    ∧ (∃ msl, (FetchStrategy.i64FromText false (12 : Int)).buffer_description.kind
        = BufferKind.text msl ∧ 14 ≤ msl) :=
  ⟨(c8_text_staging_never_truncates true 20 2 (by omega)).1,
   (c8_text_staging_never_truncates false 12 0 (by omega)).2 (by omega) (by omega)⟩

/-- Claim C10: the arbitrary-precision-binary strategy always declares its
staging text buffer nullable, even for a non-nullable column whose schema
repetition is REQUIRED, while the text-fallback-i64 strategy declares the
buffer nullable exactly when the column is optional. -/
theorem c10_staging_nullability (o : Bool) (p : Nat) (s : Int) :
    (DecimalAsBinary.new (repetitionOf o) s p).buffer_description.nullable = true
    ∧ (o = false →
        (DecimalAsBinary.new (repetitionOf o) s p).parquet_type.repetition
          = Repetition.required)
    ∧ (FetchStrategy.i64FromText o (p : Int)).buffer_description.nullable = o := by
  refine ⟨rfl, ?_, rfl⟩
  intro h
  rw [h]
  rfl

/-- Witness for C10 at a non-nullable column. -/
theorem c10_staging_nullability_witness :
    (DecimalAsBinary.new (repetitionOf false) 3 7).buffer_description.nullable = true
    ∧ (DecimalAsBinary.new (repetitionOf false) 3 7).parquet_type.repetition
        = Repetition.required :=
  ⟨(c10_staging_nullability false 7 3).1, (c10_staging_nullability false 7 3).2.1 rfl⟩

theorem bindColsFrom_all_ok {ε : Type} (c : CursorModel ε)
    (hok : ∀ k, c.bindColResult k = Except.ok ()) :
    ∀ (n start : Nat), bindColsFrom c start n
      = ((List.range' (start + 1) n).map BindStep.bindCol, Except.ok ()) := by
  intro n
  induction n with
  | zero => intro start; rfl
  | succ m ih =>
      intro start
      unfold bindColsFrom
      rw [hok (start + 1), ih (start + 1), List.range'_succ, List.map_cons]

theorem bindColsFrom_first_error {ε : Type} (c : CursorModel ε) :
    ∀ (j n start : Nat) (e : ε), j < n →
      (∀ k, k < j → c.bindColResult (start + k + 1) = Except.ok ()) →
      c.bindColResult (start + j + 1) = Except.error e →
      bindColsFrom c start n
        = ((List.range' (start + 1) (j + 1)).map BindStep.bindCol, Except.error e) := by
  intro j
  induction j with
  | zero =>
      intro n start e hj _ herr
      obtain ⟨m, rfl⟩ : ∃ m, n = m + 1 := ⟨n - 1, by omega⟩
      unfold bindColsFrom
      rw [herr]
      rfl
  | succ i ih =>
      intro n start e hj hok herr
      obtain ⟨m, rfl⟩ : ∃ m, n = m + 1 := ⟨n - 1, by omega⟩
      unfold bindColsFrom
      have h0 : c.bindColResult (start + 1) = Except.ok () := hok 0 (by omega)
      rw [h0]
      have hok' : ∀ k, k < i → c.bindColResult (start + 1 + k + 1) = Except.ok () := by
        intro k hk
        have h := hok (k + 1) (by omega)
        rwa [show start + (k + 1) + 1 = start + 1 + k + 1 by ring] at h
      have herr' : c.bindColResult (start + 1 + i + 1) = Except.error e := by
        rwa [show start + (i + 1) + 1 = start + 1 + i + 1 by ring] at herr
      rw [ih m (start + 1) e (by omega) hok' herr']
      simp only [List.range'_succ, List.map_cons]

theorem range'_one_map_bindCol (n : Nat) :
    (List.range' 1 n).map BindStep.bindCol
      = (List.range n).map (fun i => BindStep.bindCol (i + 1)) := by
  rw [List.range'_eq_map_range, List.map_map]
  refine List.map_congr_left ?_
  intro a _
  simp [Nat.add_comm]

/-- Claim C9: `bind_to_cursor` first sets the requested row-array size to
`batch_size`, then registers `num_rows_fetched` as the row-count
destination, then binds column `i` at ordinal `i + 1` in column order; the
first failing step's error is propagated and nothing further is attempted
after it. -/
theorem c9_bind_to_cursor_protocol {ε : Type} (c : CursorModel ε) (b : OdbcBuffer) :
    (c.setRowArraySizeResult b.batch_size = Except.ok () →
      c.setNumRowsFetchedResult = Except.ok () →
      (∀ k, c.bindColResult k = Except.ok ()) →
      bind_to_cursor c b
        = (BindStep.setRowArraySize b.batch_size :: BindStep.setNumRowsFetched ::
            (List.range b.buffers.length).map (fun i => BindStep.bindCol (i + 1)),
          Except.ok ()))
    ∧ (∀ e, c.setRowArraySizeResult b.batch_size = Except.error e →
        bind_to_cursor c b = ([BindStep.setRowArraySize b.batch_size], Except.error e))
    ∧ (∀ e, c.setRowArraySizeResult b.batch_size = Except.ok () →
        c.setNumRowsFetchedResult = Except.error e →
        bind_to_cursor c b
          = ([BindStep.setRowArraySize b.batch_size, BindStep.setNumRowsFetched],
            Except.error e))
    ∧ (∀ (e : ε) (j : Nat), c.setRowArraySizeResult b.batch_size = Except.ok () →
        c.setNumRowsFetchedResult = Except.ok () →
        j < b.buffers.length →
        (∀ k, k < j → c.bindColResult (k + 1) = Except.ok ()) →
        c.bindColResult (j + 1) = Except.error e →
        bind_to_cursor c b
          = (BindStep.setRowArraySize b.batch_size :: BindStep.setNumRowsFetched ::
              (List.range (j + 1)).map (fun i => BindStep.bindCol (i + 1)),
            Except.error e)) := by
  refine ⟨?_, ?_, ?_, ?_⟩
  · intro h1 h2 h3
    unfold bind_to_cursor
    rw [h1, h2, bindColsFrom_all_ok c h3 b.buffers.length 0, range'_one_map_bindCol]
  · intro e h1
    unfold bind_to_cursor
    rw [h1]
  · intro e h1 h2
    unfold bind_to_cursor
    rw [h1, h2]
  · intro e j h1 h2 hj hok herr
    unfold bind_to_cursor
    rw [h1, h2]
    have hok' : ∀ k, k < j → c.bindColResult (0 + k + 1) = Except.ok () := by
      intro k hk
      have h := hok k hk
      rwa [show k + 1 = 0 + k + 1 by ring] at h
    have herr' : c.bindColResult (0 + j + 1) = Except.error e := by
      rwa [show j + 1 = 0 + j + 1 by ring] at herr
    rw [bindColsFrom_first_error c j b.buffers.length 0 e hj hok' herr',
      range'_one_map_bindCol]

/-- Witness for C9: a two-column buffer bound on an all-accepting cursor. -/
theorem c9_bind_to_cursor_protocol_witness :
    bind_to_cursor
        (⟨fun _ => Except.ok (), Except.ok (), fun _ => Except.ok ()⟩ : CursorModel Unit)
        ⟨3, 0, [AnyColumnBuffer.i32 [], AnyColumnBuffer.text 5 []]⟩
      = ([BindStep.setRowArraySize 3, BindStep.setNumRowsFetched,
          BindStep.bindCol 1, BindStep.bindCol 2], Except.ok ()) := by
  rw [(c9_bind_to_cursor_protocol
      (⟨fun _ => Except.ok (), Except.ok (), fun _ => Except.ok ()⟩ : CursorModel Unit)
      ⟨3, 0, [AnyColumnBuffer.i32 [], AnyColumnBuffer.text 5 []]⟩).1 rfl rfl (fun _ => rfl)]
  rfl

end Odbc2Parquet
